import Mathlib

/-!
Verification development for the HK Dish Search server (Express backend).

The server code lives in the repository README (`server/index.js` inlined):
it exposes `POST /api/upload`, `GET /api/search`, `GET /api/place` and
`GET /api/photo`.  This file gives a shallow embedding of the server-side
logic those endpoints implement:

* external effects (the Google Places HTTP calls, the clock, the UUID
  generator, the filesystem) are passed in as explicit parameters;
* the metadata file `server/uploads/metadata.json` is modelled at the level
  of its parse result (`MetaContent`): either a well-formed record list or
  an unreadable/unparsable blob;
* JavaScript plain objects used as string-keyed count tables are modelled
  as insertion-ordered association lists together with the ECMAScript
  own-property enumeration order (array-index keys first, in ascending
  numeric order, then the remaining string keys in insertion order).
  Engine-dependent pathologies of `Object.prototype` keys (a token equal to
  a reserved prototype key such as a double-underscore proto name) are
  outside the model, as their observable behavior depends on
  implementation-defined builtin string conversions;
* `Array.prototype.sort` with the numeric comparator is modelled as a
  stable insertion sort (ECMAScript requires sort stability);
* `Promise.all` over the per-candidate detail fetches is modelled as a
  fail-fast sequential join over `Except` (which rejection wins the race in
  JS is scheduling-dependent; the model picks the first in list order, and
  the theorems below only use the fact that some rejection surfaces).
-/

namespace EatWhat

/-! ## JavaScript-value helpers -/

/-- Truthiness of an optional string, as JavaScript sees it: `undefined`
and the empty string are falsy, any other string is truthy. -/
def jsTruthy : Option String → Bool
  | none => false
  | some s => s ≠ ""

/-- `a || b` where `a` is an optional string and `b` a string
(JS falls through on `undefined` and on the empty string). -/
def jsOrStr (a : Option String) (b : String) : String :=
  match a with
  | some s => if s = "" then b else s
  | none => b

/-- `a || b` for two optional object references (a JS object is always
truthy, so only `undefined` falls through). -/
def jsOrOpt (a b : Option String) : Option String :=
  match a with
  | some s => some s
  | none => b

/-- A possibly-absent string interpolated into a template literal:
`undefined` prints as the text `undefined`. -/
def jsTemplate : Option String → String
  | none => "undefined"
  | some s => s

/-- Lower-casing, character by character (the ASCII simple mapping;
the inputs matched by the claims are ASCII). -/
def jsToLower (s : String) : String :=
  String.mk (s.data.map Char.toLower)

/-- `pre` is a prefix of `l` (character lists). -/
def isPrefixL : List Char → List Char → Bool
  | [], _ => true
  | _ :: _, [] => false
  | p :: ps, h :: hs => p = h && isPrefixL ps hs

/-- `pat` occurs as a contiguous substring of `hay` (character lists). -/
def subL (pat : List Char) : List Char → Bool
  | [] => isPrefixL pat []
  | h :: hs => isPrefixL pat (h :: hs) || subL pat hs

/-- JavaScript `s.includes(pat)`: substring containment. -/
def strIncludes (s pat : String) : Bool :=
  subL pat.data s.data

/-- JavaScript `s.startsWith(pre)`. -/
def jsStartsWith (s pre : String) : Bool :=
  isPrefixL pre.data s.data

/-! ## The record store (`server/uploads/metadata.json`) -/

/-- One entry of `metadata.json`, as the upload handler writes it. -/
structure UploadRecord where
  id : String
  filename : String
  url : String
  thumb_url : Option String
  preview_url : Option String
  place_id : String
  dish : String
  uploader_name : String
  created_at : String
deriving DecidableEq, Repr

/-- The metadata file, at the level of its parse result: either a
well-formed JSON array of records, or an unreadable/unparsable blob. -/
inductive MetaContent where
  | good (records : List UploadRecord)
  | corrupt
deriving DecidableEq, Repr

/-- `readMetadata()`: parse the metadata file, returning `[]` when reading
or parsing fails (the `catch` branch of the source). -/
def readMetadata : MetaContent → List UploadRecord
  | .good rs => rs
  | .corrupt => []

/-- Durable server state: the names of the files under `server/uploads`
and the metadata file. -/
structure ServerState where
  files : List String
  meta : MetaContent
deriving DecidableEq, Repr

/-! ## `POST /api/upload` -/

/-- The multipart file part: its MIME type and original client name. -/
structure FilePart where
  mimetype : String
  originalname : String
deriving DecidableEq, Repr

/-- An upload request: the optional file part and the body fields
(`undefined` when the field is absent). -/
structure UploadReq where
  photo : Option FilePart
  place_id : Option String
  dish : Option String
  uploader_name : Option String
deriving DecidableEq, Repr

/-- How an upload request ends.  `fileRejected` is the multer
`fileFilter` error (`Only image files are allowed`): the source sets no
HTTP status on that path, the framework's default error handling does. -/
inductive UploadOutcome where
  | fileRejected
  | missingPhoto
  | missingPlaceId
  | created (record : UploadRecord)
deriving DecidableEq, Repr

/-- The HTTP status the source itself sets for an upload outcome
(`none` for the multer rejection, whose status the source leaves to the
framework). -/
def uploadStatus : UploadOutcome → Option Nat
  | .fileRejected => none
  | .missingPhoto => some 400
  | .missingPlaceId => some 400
  | .created _ => some 201

/-- The HTTP status the client observes for an upload outcome: the
status the handler sets, or the framework default where it sets none.
On the `fileRejected` path multer hands the `fileFilter` error to
`next(err)`; the app registers no error-handling middleware, so
Express's default error handler answers, and a plain `Error` carries no
status, giving 500. -/
def observedUploadStatus (o : UploadOutcome) : Nat :=
  (uploadStatus o).getD 500

/-- `path.extname`: the suffix of the name from its last dot, or `""`
when there is no dot or the only dot leads the name. -/
def extnameStr (s : String) : String :=
  let cs := s.data
  let tail := cs.reverse.takeWhile (fun c => c ≠ '.')
  if tail.length = cs.length then ""
  else if tail.length + 1 = cs.length then ""
  else String.mk ('.' :: tail.reverse)

/-- The disk name multer's storage engine generates: the fresh UUID plus
the original extension, defaulting to `.jpg`. -/
def savedName (fileId : String) (originalname : String) : String :=
  let ext := extnameStr originalname
  fileId ++ (if ext = "" then ".jpg" else ext)

/-- The `POST /api/upload` pipeline.  `fileId`, `recId` and `now` stand
for the two generated UUIDs and the timestamp; `variantOk` is whether
`generateResizedVariants` (sharp) succeeds.  Multer's `fileFilter` and
disk storage run before the handler body; `fs.unlinkSync` on the
missing-`place_id` path is modelled as erasing the saved name. -/
def uploadEndpoint (st : ServerState) (req : UploadReq)
    (fileId recId now : String) (variantOk : Bool) :
    ServerState × UploadOutcome :=
  match req.photo with
  | none => (st, .missingPhoto)
  | some f =>
    if ¬ jsStartsWith f.mimetype "image/" then (st, .fileRejected)
    else
      let filename := savedName fileId f.originalname
      let st1 : ServerState := { st with files := st.files ++ [filename] }
      if ¬ jsTruthy req.place_id then
        ({ st1 with files := st1.files.erase filename }, .missingPlaceId)
      else
        let thumbF : Option String :=
          if variantOk then some (fileId ++ "_thumb.jpg") else none
        let prevF : Option String :=
          if variantOk then some (fileId ++ "_preview.jpg") else none
        let st2 : ServerState :=
          if variantOk then
            { st1 with files :=
                st1.files ++ [fileId ++ "_thumb.jpg", fileId ++ "_preview.jpg"] }
          else st1
        let metadata := readMetadata st2.meta
        let record : UploadRecord :=
          { id := recId
            filename := filename
            url := "/uploads/" ++ filename
            thumb_url := thumbF.map (fun t => "/uploads/" ++ t)
            preview_url := prevF.map (fun p => "/uploads/" ++ p)
            place_id := req.place_id.getD ""
            dish := req.dish.getD ""
            uploader_name := req.uploader_name.getD ""
            created_at := now }
        ({ st2 with meta := .good (metadata ++ [record]) }, .created record)

/-! ## `GET /api/search` -/

/-- A text-search candidate: the fields of a Places text-search result the
handler reads.  `location` stands for the (opaque) `geometry.location`
object when present. -/
structure TPlace where
  place_id : String
  name : String
  formatted_address : String
  location : Option String
  types : List String
deriving DecidableEq, Repr

/-- A place-details response body for the search fan-out: the fields of
`detailsResp.data.result` the handler reads (each may be absent).
`photos` is the list of photo references; an absent `photos` field and an
empty list behave identically in the handler and share the `[]` model. -/
structure PDetails where
  place_id : Option String
  name : Option String
  formatted_address : Option String
  location : Option String
  types : Option (List String)
  photos : List String
deriving DecidableEq, Repr

/-- One aggregated search-result row. -/
structure PlaceSummary where
  place_id : String
  name : String
  address : String
  location : Option String
  types : List String
  thumbnail : Option String
  maps_url : String
deriving DecidableEq, Repr

/-- `googleMapsUrl(place_id)`. -/
def googleMapsUrl (place_id : String) : String :=
  "https://www.google.com/maps/place/?q=place_id:" ++ place_id

/-- The textual query the search handler builds: each term containing a
space (JS `t.includes(' ')`) is wrapped in double quotes, the terms are
joined with `" OR "`, and the regional qualifier is appended. -/
def buildQuery (terms : List String) : String :=
  String.intercalate " OR "
      (terms.map (fun t => if strIncludes t " " then "\"" ++ t ++ "\"" else t))
    ++ " restaurants in Hong Kong"

/-- Parsing of the `terms` query parameter for `/api/search`: split on
commas, trim, drop falsy (empty) entries. -/
def parseSearchTerms (raw : String) : List String :=
  ((raw.splitOn ",").map String.trim).filter (fun t => t ≠ "")

/-- `await Promise.all(l.map f)` for fallible `f`, as a fail-fast join:
an error if any element fails (the model reports the first in list
order; which rejection wins the race in JS is scheduling-dependent),
otherwise the list of results in order. -/
def promiseAll (f : α → Except String β) : List α → Except String (List β)
  | [] => .ok []
  | x :: xs =>
    match f x with
    | .error e => .error e
    | .ok v =>
      match promiseAll f xs with
      | .error e => .error e
      | .ok vs => .ok (v :: vs)

/-- The per-candidate body of the search fan-out, after the details fetch
succeeded: field fallbacks (`details.x || p.x`), thumbnail resolution
(first provider photo, else the first store record for the place with a
truthy thumb reference, else null), and the maps URL. -/
def mkSummary (store : List UploadRecord) (p : TPlace) (d : PDetails) :
    PlaceSummary :=
  let pid := jsOrStr d.place_id p.place_id
  let thumbnail : Option String :=
    match d.photos with
    | ref :: _ => some ("/api/photo?photoreference=" ++ ref ++ "&maxwidth=400")
    | [] =>
      match store.find? (fun m => m.place_id = pid && jsTruthy m.thumb_url) with
      | some m => m.thumb_url
      | none => none
  { place_id := pid
    name := jsOrStr d.name p.name
    address := jsOrStr d.formatted_address p.formatted_address
    location := jsOrOpt d.location p.location
    types := d.types.getD p.types
    thumbnail := thumbnail
    maps_url := googleMapsUrl pid }

/-- How a search request ends. -/
inductive SearchOutcome where
  | missingTerms
  | upstream (msg : String)
  | ok (query : String) (results : List PlaceSummary)
deriving DecidableEq, Repr

/-- The HTTP status the source sets for a search outcome. -/
def searchStatus : SearchOutcome → Nat
  | .missingTerms => 400
  | .upstream _ => 500
  | .ok _ _ => 200

/-- The `/api/search` handler after term parsing and the text-search call:
reject an empty term list, cap the candidates at 20, fan out the detail
fetches (`fetch`, keyed by `place_id`) and join them fail-fast, reading
the record store for thumbnail fallbacks. -/
def searchCore (terms : List String) (places : List TPlace)
    (fetch : String → Except String PDetails) (meta : MetaContent) :
    SearchOutcome :=
  if terms.length = 0 then .missingTerms
  else
    let query := buildQuery terms
    let limited := places.take 20
    match promiseAll
        (fun p => (fetch p.place_id).map
          (fun d => mkSummary (readMetadata meta) p d)) limited with
    | .error e => .upstream e
    | .ok results => .ok query results

/-- The full `/api/search` handler: parse the raw `terms` parameter, then
run the core aggregation. -/
def searchEndpoint (rawTerms : String) (places : List TPlace)
    (fetch : String → Except String PDetails) (meta : MetaContent) :
    SearchOutcome :=
  searchCore (parseSearchTerms rawTerms) places fetch meta

/-! ## `GET /api/place` -/

/-- A review, with the five fields the handler projects.  `text` may be
absent (`r.text || ''` in the source). -/
structure Review where
  author_name : String
  text : Option String
  rating : Int
  relative_time_description : String
  author_url : String
deriving DecidableEq, Repr

/-- The details response body for `/api/place`: the fields of
`detailsResp.data.result` the handler reads. -/
structure PlaceData where
  place_id : Option String
  name : Option String
  formatted_address : Option String
  location : Option String
  photos : List String
  reviews : List Review
deriving DecidableEq, Repr

/-- One user-photo row of the `/api/place` response. -/
structure UserPhotoOut where
  id : String
  url : String
  thumb_url : Option String
  preview_url : Option String
  dish : String
  uploader_name : String
  created_at : String
deriving DecidableEq, Repr

/-- The `/api/place` response body. -/
structure PlaceDetailResp where
  place_id : Option String
  name : Option String
  address : Option String
  location : Option String
  photos : List String
  reviews : List Review
  reviewsWithTerms : List Review
  dishCandidates : List String
  maps_url : String
  userPhotos : List UserPhotoOut
deriving DecidableEq, Repr

/-- The fixed stop-word list of the keyword extraction. -/
def stopWords : List String :=
  ["the", "and", "of", "a", "is", "in", "to", "with", "on"]

/-- A regex word character (`\w` without the unicode flag):
ASCII letter, ASCII digit or underscore. -/
def isWordChar (c : Char) : Bool :=
  ('a' ≤ c && c ≤ 'z') || ('A' ≤ c && c ≤ 'Z') || ('0' ≤ c && c ≤ '9') || c = '_'

mutual

/-- `s.split(/\W+/)` while reading a (possibly empty) word run:
`cur` holds the run read so far, reversed. -/
def splitWordsGo : List Char → List Char → List (List Char)
  | [], cur => [cur.reverse]
  | c :: cs, cur =>
    if isWordChar c then splitWordsGo cs (c :: cur)
    else cur.reverse :: splitWordsSkip cs

/-- `s.split(/\W+/)` while inside a separator run (a field has just been
emitted); reaching the end here emits the trailing empty field, exactly
as the JavaScript split does. -/
def splitWordsSkip : List Char → List (List Char)
  | [] => [[]]
  | c :: cs =>
    if isWordChar c then splitWordsGo cs [c]
    else splitWordsSkip cs

end

/-- `s.split(/\W+/)` on a character list. -/
def jsSplitW (s : List Char) : List (List Char) :=
  splitWordsGo s []

/-- The token stream of the keyword extraction: all review texts joined
with spaces, lower-cased, split on non-word characters. -/
def tokensOf (reviews : List Review) : List String :=
  let allText :=
    jsToLower (String.intercalate " " (reviews.map (fun r => r.text.getD "")))
  (jsSplitW allText.data).map (fun cs => String.mk cs)

/-- `wordCounts[w] = (wordCounts[w] || 0) + 1` on an insertion-ordered
count table: bump the first entry with this key, or append `(w, 1)`. -/
def objInc : List (String × Nat) → String → List (String × Nat)
  | [], k => [(k, 1)]
  | (k', v) :: rest, k =>
    if k' = k then (k', v + 1) :: rest else (k', v) :: objInc rest k

/-- The numeric value of an all-digit string. -/
def digitsVal (s : String) : Nat :=
  s.data.foldl (fun n c => n * 10 + (c.toNat - 48)) 0

/-- An ECMAScript array-index property key: a canonical decimal string
(no leading zero except `"0"` itself) whose value is below `2 ^ 32 - 1`.
Such own keys enumerate before all other string keys, in ascending
numeric order. -/
def isArrayIndexStr (s : String) : Bool :=
  match s.data with
  | [] => false
  | c :: cs =>
    s.data.all (fun d => '0' ≤ d && d ≤ '9')
      && (c ≠ '0' || cs = [])
      && digitsVal s < 4294967295

/-- Insert a key into a list of keys sorted by ascending numeric value. -/
def insNum (k : String) : List String → List String
  | [] => [k]
  | y :: ys => if digitsVal y ≤ digitsVal k then y :: insNum k ys else k :: y :: ys

/-- Sort keys by ascending numeric value (insertion sort). -/
def sortNum : List String → List String
  | [] => []
  | k :: ks => insNum k (sortNum ks)

/-- Insert a key into a list of (key, count) pairs whose keys are sorted
by ascending numeric value. -/
def insNumP (x : String × Nat) : List (String × Nat) → List (String × Nat)
  | [] => [x]
  | y :: ys =>
    if digitsVal y.1 ≤ digitsVal x.1 then y :: insNumP x ys else x :: y :: ys

/-- Sort (key, count) pairs by ascending numeric key value. -/
def sortNumP : List (String × Nat) → List (String × Nat)
  | [] => []
  | x :: xs => insNumP x (sortNumP xs)

/-- `Object.entries` of the count table: the own-property enumeration
order of an ECMAScript ordinary object — array-index keys first in
ascending numeric order, then the remaining keys in insertion order. -/
def jsEntries (o : List (String × Nat)) : List (String × Nat) :=
  sortNumP (o.filter (fun p => isArrayIndexStr p.1))
    ++ o.filter (fun p => !isArrayIndexStr p.1)

/-- Insert into a list sorted by descending count, after every entry with
a greater count and before the first entry with count at most this one
(so earlier elements stay first on ties: stability). -/
def insertCountDesc (x : String × Nat) :
    List (String × Nat) → List (String × Nat)
  | [] => [x]
  | y :: ys =>
    if x.2 < y.2 then y :: insertCountDesc x ys else x :: y :: ys

/-- `entries.sort((a, b) => b[1] - a[1])`: a stable sort by descending
count (ECMAScript requires `Array.prototype.sort` to be stable). -/
def sortCountDesc : List (String × Nat) → List (String × Nat)
  | [] => []
  | x :: xs => insertCountDesc x (sortCountDesc xs)

/-- The keyword extraction of `/api/place`: count the tokens that are
longer than one character and not stop words, then take the keys of the
top-10 entries by descending count. -/
def dishCandidates (reviews : List Review) : List String :=
  let wordCounts :=
    (tokensOf reviews).foldl
      (fun o w =>
        if w.length ≤ 1 then o
        else if stopWords.contains w then o
        else objInc o w) []
  ((sortCountDesc (jsEntries wordCounts)).take 10).map Prod.fst

/-- Parsing of the `terms` query parameter for `/api/place`: split on
commas, trim, lower-case, drop falsy (empty) entries. -/
def parsePlaceTerms (raw : String) : List String :=
  ((raw.splitOn ",").map (fun t => jsToLower t.trim)).filter (fun t => t ≠ "")

/-- The user-photo projection of a store record. -/
def projUserPhoto (m : UploadRecord) : UserPhotoOut :=
  { id := m.id
    url := m.url
    thumb_url := m.thumb_url
    preview_url := m.preview_url
    dish := m.dish
    uploader_name := m.uploader_name
    created_at := m.created_at }

/-- The `/api/place` handler body after the details fetch succeeded:
photo proxy URLs, review projection, term-matched reviews, keyword
extraction, and the term-filtered user photos for the requested
`place_id` (`reqPid`).  `terms` is the parsed term list (trimmed,
lower-cased, non-empty entries). -/
def placeDetailCore (meta : MetaContent) (place : PlaceData)
    (reqPid : String) (terms : List String) : PlaceDetailResp :=
  let photos := place.photos.map
    (fun ref => "/api/photo?photoreference=" ++ ref ++ "&maxwidth=800")
  let reviews := place.reviews.map
    (fun r =>
      { author_name := r.author_name
        text := r.text
        rating := r.rating
        relative_time_description := r.relative_time_description
        author_url := r.author_url : Review })
  let reviewsWithTerms := reviews.filter
    (fun r =>
      let text := jsToLower (r.text.getD "")
      if terms.length = 0 then false
      else terms.any (fun t => strIncludes text t))
  let userPhotos :=
    (((readMetadata meta).filter (fun m => m.place_id = reqPid)).filter
      (fun m =>
        if terms.length = 0 then true
        else terms.any (fun t => strIncludes (jsToLower m.dish) t))).map
      projUserPhoto
  { place_id := place.place_id
    name := place.name
    address := place.formatted_address
    location := place.location
    photos := photos
    reviews := reviews
    reviewsWithTerms := reviewsWithTerms
    dishCandidates := dishCandidates reviews
    maps_url := googleMapsUrl (jsTemplate place.place_id)
    userPhotos := userPhotos }

/-! ## Spec-side definitions

The definitions in this section follow the specification's words, to be
compared with the source-derived definitions above. -/

/-- The tokens kept by the keyword extraction, per the specification:
length greater than one and not a stop word. -/
def keepTok (w : String) : Bool :=
  decide (1 < w.length) && ! stopWords.contains w

/-- The distinct elements of a token list in first-seen order, `seen`
being the keys already emitted. -/
def newKeys (seen : List String) : List String → List String
  | [] => []
  | t :: ts =>
    if t ∈ seen then newKeys seen ts else t :: newKeys (t :: seen) ts

/-- The number of occurrences of `k` in a token list. -/
def cnt (k : String) : List String → Nat
  | [] => 0
  | t :: ts => (if t = k then 1 else 0) + cnt k ts

/-- The keyword extraction as the specification words it: count the kept
tokens, order the distinct tokens first-seen, stably sort by descending
count, keep the first ten keys. -/
def claimDishCandidates (reviews : List Review) : List String :=
  let ks := (tokensOf reviews).filter keepTok
  let fs := newKeys [] ks
  ((sortCountDesc (fs.map (fun k => (k, cnt k ks)))).take 10).map Prod.fst

/-- The keyword extraction as amended: as `claimDishCandidates`, except
that the distinct tokens enumerate in ECMAScript own-property order —
array-index-like tokens first in ascending numeric order, then the
remaining tokens in first-seen order — before the stable sort by
descending count. -/
def amendedDishCandidates (reviews : List Review) : List String :=
  let ks := (tokensOf reviews).filter keepTok
  let fs := newKeys [] ks
  let ordered :=
    sortNum (fs.filter (fun k => isArrayIndexStr k))
      ++ fs.filter (fun k => !isArrayIndexStr k)
  ((sortCountDesc (ordered.map (fun k => (k, cnt k ks)))).take 10).map
    Prod.fst

/-- The search query as the claim words it: every term containing
whitespace is wrapped in double quotes, the terms are joined with
`" OR "`, and the regional qualifier is appended. -/
def claimQuery (terms : List String) : String :=
  String.intercalate " OR "
      (terms.map (fun t =>
        if t.data.any (fun c => c.isWhitespace) then "\"" ++ t ++ "\"" else t))
    ++ " restaurants in Hong Kong"

/-- The search query as amended: only terms containing a space character
(U+0020) are wrapped in double quotes. -/
def amendedQuery (terms : List String) : String :=
  String.intercalate " OR "
      (terms.map (fun t =>
        if t.data.any (fun c => c = ' ') then "\"" ++ t ++ "\"" else t))
    ++ " restaurants in Hong Kong"

/-- How a `/api/place` request ends. -/
inductive PlaceOutcome where
  | missingPlaceId
  | upstream (msg : String)
  | ok (resp : PlaceDetailResp)
deriving DecidableEq, Repr

/-- The full `/api/place` handler: reject a falsy `place_id`, fetch the
details, build the response. -/
def placeEndpoint (place_id : Option String) (rawTerms : String)
    (fetch : String → Except String PlaceData) (meta : MetaContent) :
    PlaceOutcome :=
  let terms := parsePlaceTerms rawTerms
  if ¬ jsTruthy place_id then .missingPlaceId
  else
    match fetch (place_id.getD "") with
    | .error e => .upstream e
    | .ok place => .ok (placeDetailCore meta place (place_id.getD "") terms)

/-! ## Concrete inputs for the witnesses -/

/-- A sample record already in the store. -/
def exRec0 : UploadRecord :=
  { id := "r0", filename := "old.jpg", url := "/uploads/old.jpg"
    thumb_url := some "/uploads/old_thumb.jpg"
    preview_url := some "/uploads/old_preview.jpg"
    place_id := "pX", dish := "congee", uploader_name := "bo"
    created_at := "2023-12-31T00:00:00.000Z" }

/-- A server state with one stored file and one record. -/
def exState : ServerState :=
  { files := ["old.jpg"], meta := .good [exRec0] }

/-- A valid image file part. -/
def exImage : FilePart := { mimetype := "image/png", originalname := "cat.png" }

/-- A non-image file part. -/
def exTextFile : FilePart := { mimetype := "text/plain", originalname := "notes.txt" }

/-- A text-search candidate with the given id. -/
def mkTP (pid : String) : TPlace :=
  { place_id := pid, name := "n", formatted_address := "addr"
    location := none, types := ["restaurant"] }

/-- An empty details body. -/
def blankD : PDetails :=
  { place_id := none, name := none, formatted_address := none
    location := none, types := none, photos := [] }

/-- Five candidates. -/
def exPlaces5 : List TPlace :=
  [mkTP "p1", mkTP "p2", mkTP "p3", mkTP "p4", mkTP "p5"]

/-- A detail fetcher that fails exactly on the third candidate. -/
def exFetchFail3 (pid : String) : Except String PDetails :=
  if pid = "p3" then .error "detail fetch failed" else .ok blankD

/-- Twenty-five candidates, more than the fan-out cap. -/
def exPlaces25 : List TPlace :=
  (List.range 25).map (fun i => mkTP ("q" ++ toString i))

/-- A detail fetcher that always succeeds with an empty body. -/
def exFetchOk (_ : String) : Except String PDetails := .ok blankD

/-- A review with the given text. -/
def mkReview (t : String) : Review :=
  { author_name := "alice", text := some t, rating := 5
    relative_time_description := "a week ago", author_url := "http://x" }

/-! ## Helper lemmas -/

/-- A singleton pattern occurs in `l` exactly when its character does. -/
theorem subL_singleton (c : Char) (l : List Char) :
    subL [c] l = l.any (fun x => x = c) := by
  induction l with
  | nil => rfl
  | cons h hs ih =>
    simp only [subL, isPrefixL, Bool.and_true, ih, List.any_cons]
    congr 1
    exact decide_eq_decide.mpr ⟨Eq.symm, Eq.symm⟩

/-- JavaScript `t.includes(' ')` is exactly "some character of `t` is a
space". -/
theorem strIncludes_space (t : String) :
    strIncludes t " " = t.data.any (fun c => c = ' ') :=
  subL_singleton ' ' t.data

/-- A fail-fast join succeeds on a list of elements that all succeed,
returning the mapped values in order. -/
theorem promiseAll_ok {α β : Type} (f : α → Except String β) (g : α → β) :
    ∀ l : List α, (∀ a ∈ l, f a = .ok (g a)) → promiseAll f l = .ok (l.map g)
  | [], _ => rfl
  | x :: xs, h => by
    have hx := h x (List.mem_cons_self x xs)
    have ih := promiseAll_ok f g xs (fun a ha => h a (List.mem_cons_of_mem _ ha))
    simp [promiseAll, hx, ih]

/-- A fail-fast join fails as soon as any element of the list fails. -/
theorem promiseAll_error {α β : Type} (f : α → Except String β) :
    ∀ l : List α, (∃ a ∈ l, ∃ e, f a = .error e) →
      ∃ e, promiseAll f l = .error e
  | [], h => by
    obtain ⟨a, ha, _⟩ := h
    cases ha
  | x :: xs, h => by
    match hfx : f x with
    | .error e => exact ⟨e, by simp [promiseAll, hfx]⟩
    | .ok v =>
      obtain ⟨a, ha, e, hae⟩ := h
      rcases List.mem_cons.mp ha with rfl | ha'
      · rw [hfx] at hae
        cases hae
      · obtain ⟨e', he'⟩ := promiseAll_error f xs ⟨a, ha', e, hae⟩
        exact ⟨e', by simp [promiseAll, hfx, he']⟩

/-! ## Claim theorems: the upload pipeline -/

/-- C8 counterexample: ingesting a `text/plain` file is rejected with
the server state unchanged, but the status the client observes is 500,
not the claimed 400 — the handler sets no status on this path, so the
multer `fileFilter` error reaches Express's default error handler, and
a plain `Error` carries no status. -/
theorem upload_non_image_400_counterexample :
    uploadEndpoint exState ⟨some exTextFile, some "pX", some "congee", some "amy"⟩
        "u1" "r1" "2024-01-01T00:00:00.000Z" true
      = (exState, .fileRejected)
    ∧ uploadStatus .fileRejected = none
    ∧ observedUploadStatus .fileRejected = 500
    ∧ ¬ observedUploadStatus .fileRejected = 400 :=
  ⟨by decide, rfl, rfl, by decide⟩

/-- C8 as amended: a file whose MIME type does not start with `image/`
is rejected by the multer `fileFilter` before anything reaches durable
storage — the server state (files and record store) is unchanged, so no
original is persisted and no `UploadRecord` is appended — and the
rejection surfaces through the framework's default error handling as
HTTP 500 (the handler itself sets no status on this path), not 400. -/
theorem upload_non_image_rejected_before_storage
    (st : ServerState) (f : FilePart) (pid dish uname : Option String)
    (fileId recId now : String) (variantOk : Bool)
    (h : jsStartsWith f.mimetype "image/" = false) :
    uploadEndpoint st ⟨some f, pid, dish, uname⟩ fileId recId now variantOk
      = (st, .fileRejected)
    ∧ observedUploadStatus .fileRejected = 500 := by
  exact ⟨by simp [uploadEndpoint, h], rfl⟩

/-- C8 witness: ingesting a `text/plain` file leaves the store and the
file directory exactly as they were, and the observed status is 500. -/
theorem upload_non_image_rejected_before_storage_witness :
    uploadEndpoint exState ⟨some exTextFile, some "pX", some "congee", some "amy"⟩
        "u1" "r1" "2024-01-01T00:00:00.000Z" true
      = (exState, .fileRejected)
    ∧ observedUploadStatus .fileRejected = 500 :=
  upload_non_image_rejected_before_storage _ _ _ _ _ _ _ _ _ (by decide)

/-- C5: a valid image upload whose `place_id` is missing or empty is
answered with HTTP 400 (`Missing place_id`), the just-saved original is
unlinked again, and no record is appended: the server state ends exactly
as it began.  `hfresh` states that the generated disk name is fresh, as
UUID generation guarantees. -/
theorem upload_missing_place_id_rolls_back
    (st : ServerState) (f : FilePart) (pid dish uname : Option String)
    (fileId recId now : String) (variantOk : Bool)
    (himg : jsStartsWith f.mimetype "image/" = true)
    (hfresh : savedName fileId f.originalname ∉ st.files)
    (hpid : jsTruthy pid = false) :
    uploadEndpoint st ⟨some f, pid, dish, uname⟩ fileId recId now variantOk
      = (st, .missingPlaceId)
    ∧ uploadStatus .missingPlaceId = some 400 := by
  refine ⟨?_, rfl⟩
  simp only [uploadEndpoint, himg, hpid, Bool.not_true, Bool.false_eq_true,
    not_false_iff, if_true, if_false]
  rw [List.erase_append_right _ hfresh]
  simp

/-- C5 witness: uploading a valid image with `place_id = ""` returns the
state to exactly `exState`: zero surviving files and zero appended
records for the request. -/
theorem upload_missing_place_id_rolls_back_witness :
    uploadEndpoint exState ⟨some exImage, some "", some "wonton", some "amy"⟩
        "u1" "r1" "2024-01-01T00:00:00.000Z" true
      = (exState, .missingPlaceId)
    ∧ uploadStatus .missingPlaceId = some 400 :=
  upload_missing_place_id_rolls_back _ _ _ _ _ _ _ _ _
    (by decide) (by decide) (by decide)

/-- C6: when the upload passes validation and the variant generator
fails, the request still succeeds with HTTP 201: the record is built
with null thumb and preview references and appended to the store, and
only the original file is added to storage. -/
theorem upload_variant_failure_still_created
    (st : ServerState) (f : FilePart) (pid dish uname : Option String)
    (fileId recId now : String)
    (himg : jsStartsWith f.mimetype "image/" = true)
    (hpid : jsTruthy pid = true) :
    ∃ r : UploadRecord,
      uploadEndpoint st ⟨some f, pid, dish, uname⟩ fileId recId now false
        = ({ files := st.files ++ [savedName fileId f.originalname]
             meta := .good (readMetadata st.meta ++ [r]) }, .created r)
      ∧ r.thumb_url = none ∧ r.preview_url = none
      ∧ uploadStatus (.created r) = some 201 := by
  refine ⟨{ id := recId, filename := savedName fileId f.originalname
            url := "/uploads/" ++ savedName fileId f.originalname
            thumb_url := none, preview_url := none
            place_id := pid.getD "", dish := dish.getD ""
            uploader_name := uname.getD "", created_at := now },
    ?_, rfl, rfl, rfl⟩
  simp [uploadEndpoint, himg, hpid]

/-- C6 witness: a concrete valid upload with a failing variant generator
is created with null variant references and HTTP 201. -/
theorem upload_variant_failure_still_created_witness :
    ∃ r : UploadRecord,
      uploadEndpoint exState ⟨some exImage, some "pX", some "wonton", some "amy"⟩
          "u1" "r1" "2024-01-01T00:00:00.000Z" false
        = ({ files := exState.files ++ [savedName "u1" exImage.originalname]
             meta := .good (readMetadata exState.meta ++ [r]) }, .created r)
      ∧ r.thumb_url = none ∧ r.preview_url = none
      ∧ uploadStatus (.created r) = some 201 :=
  upload_variant_failure_still_created _ _ _ _ _ _ _ _ (by decide) (by decide)

/-- C10: when the metadata file is unreadable or unparsable at ingest
time, `readMetadata` degrades to the empty list, an otherwise-valid
upload still succeeds with HTTP 201, and the store file is rewritten to
hold exactly the one new record — every previously persisted record is
silently dropped. -/
theorem upload_corrupt_store_drops_previous_records
    (st : ServerState) (f : FilePart) (pid dish uname : Option String)
    (fileId recId now : String) (variantOk : Bool)
    (hmeta : st.meta = .corrupt)
    (himg : jsStartsWith f.mimetype "image/" = true)
    (hpid : jsTruthy pid = true) :
    readMetadata st.meta = []
    ∧ ∃ r st', uploadEndpoint st ⟨some f, pid, dish, uname⟩ fileId recId now variantOk
        = (st', .created r)
      ∧ st'.meta = .good [r]
      ∧ uploadStatus (.created r) = some 201 := by
  obtain ⟨fls, m⟩ := st
  simp only at hmeta
  subst hmeta
  refine ⟨rfl, ?_⟩
  cases variantOk with
  | false =>
    refine ⟨{ id := recId, filename := savedName fileId f.originalname
              url := "/uploads/" ++ savedName fileId f.originalname
              thumb_url := none, preview_url := none
              place_id := pid.getD "", dish := dish.getD ""
              uploader_name := uname.getD "", created_at := now },
      ⟨fls ++ [savedName fileId f.originalname], _⟩,
      ?_, rfl, rfl⟩
    simp [uploadEndpoint, himg, hpid, readMetadata]
  | true =>
    refine ⟨{ id := recId, filename := savedName fileId f.originalname
              url := "/uploads/" ++ savedName fileId f.originalname
              thumb_url := some ("/uploads/" ++ (fileId ++ "_thumb.jpg"))
              preview_url := some ("/uploads/" ++ (fileId ++ "_preview.jpg"))
              place_id := pid.getD "", dish := dish.getD ""
              uploader_name := uname.getD "", created_at := now },
      ⟨fls ++ [savedName fileId f.originalname,
        fileId ++ "_thumb.jpg", fileId ++ "_preview.jpg"], _⟩,
      ?_, rfl, rfl⟩
    simp [uploadEndpoint, himg, hpid, readMetadata]

/-- C10 witness: with a corrupt store, a concrete valid upload succeeds
and the rewritten store holds only the new record. -/
theorem upload_corrupt_store_drops_previous_records_witness :
    readMetadata (ServerState.mk ["old.jpg"] .corrupt).meta = []
    ∧ ∃ r st', uploadEndpoint ⟨["old.jpg"], .corrupt⟩
          ⟨some exImage, some "pX", some "wonton", some "amy"⟩
          "u1" "r1" "2024-01-01T00:00:00.000Z" true
        = (st', .created r)
      ∧ st'.meta = .good [r]
      ∧ uploadStatus (.created r) = some 201 :=
  upload_corrupt_store_drops_previous_records _ _ _ _ _ _ _ _ _
    rfl (by decide) (by decide)

/-! ## Claim theorems: the search aggregation -/

/-- C1: if any of the per-candidate detail fetches the search operation
issues fails (a fetch is issued for each of the first at-most-20
candidates; the term list is non-empty, else none is issued), the whole
request fails with the 500 upstream error and no result list — partial
or otherwise — is returned. -/
theorem search_detail_failure_fails_request
    (terms : List String) (places : List TPlace)
    (fetch : String → Except String PDetails) (meta : MetaContent)
    (hterms : terms ≠ [])
    (hfail : ∃ p ∈ places.take 20, ∃ e, fetch p.place_id = .error e) :
    (∃ msg, searchCore terms places fetch meta = .upstream msg
      ∧ searchStatus (.upstream msg) = 500)
    ∧ ∀ q rs, searchCore terms places fetch meta ≠ .ok q rs := by
  have hlen : ¬ terms.length = 0 := by
    simpa [List.length_eq_zero] using hterms
  have hfail' : ∃ p ∈ places.take 20, ∃ e,
      (fetch p.place_id).map (fun d => mkSummary (readMetadata meta) p d)
        = .error e := by
    obtain ⟨p, hp, e, he⟩ := hfail
    exact ⟨p, hp, e, by rw [he]; rfl⟩
  obtain ⟨e, he⟩ := promiseAll_error _ (places.take 20) hfail'
  refine ⟨⟨e, ?_, rfl⟩, ?_⟩
  · simp [searchCore, hlen, he]
  · intro q rs
    simp [searchCore, hlen, he]

/-- C1 witness: five candidates, the third detail fetch failing — the
outcome is the overall upstream error, never a four-item `ok`. -/
theorem search_detail_failure_fails_request_witness :
    (∃ msg, searchCore ["wonton"] exPlaces5 exFetchFail3 (.good [])
        = .upstream msg
      ∧ searchStatus (.upstream msg) = 500)
    ∧ ∀ q rs, searchCore ["wonton"] exPlaces5 exFetchFail3 (.good [])
        ≠ .ok q rs :=
  search_detail_failure_fails_request _ _ _ _ (by decide)
    ⟨mkTP "p3", by decide, "detail fetch failed", rfl⟩

/-- C2: with a non-empty term list and all issued detail fetches
succeeding, the search returns exactly the summaries of the first
at-most-20 candidates, in the original candidate order, so the result
list never exceeds 20 entries however many candidates the upstream
reported. -/
theorem search_caps_results_at_20_preserving_order
    (terms : List String) (places : List TPlace)
    (fetch : String → Except String PDetails) (meta : MetaContent)
    (d : TPlace → PDetails)
    (hterms : terms ≠ [])
    (hok : ∀ p ∈ places.take 20, fetch p.place_id = .ok (d p)) :
    searchCore terms places fetch meta
      = .ok (buildQuery terms)
          ((places.take 20).map (fun p => mkSummary (readMetadata meta) p (d p)))
    ∧ ((places.take 20).map
        (fun p => mkSummary (readMetadata meta) p (d p))).length ≤ 20 := by
  have hlen : ¬ terms.length = 0 := by
    simpa [List.length_eq_zero] using hterms
  have hall : ∀ p ∈ places.take 20,
      (fetch p.place_id).map (fun dd => mkSummary (readMetadata meta) p dd)
        = .ok (mkSummary (readMetadata meta) p (d p)) := by
    intro p hp
    rw [hok p hp]
    rfl
  have hjoin := promiseAll_ok _
    (fun p => mkSummary (readMetadata meta) p (d p)) (places.take 20) hall
  refine ⟨by simp [searchCore, hlen, hjoin], ?_⟩
  rw [List.length_map]
  exact List.length_take_le 20 places

/-- C2 witness: twenty-five candidates and an always-succeeding fetcher
yield exactly the first twenty summaries, in order. -/
theorem search_caps_results_at_20_preserving_order_witness :
    searchCore ["wonton"] exPlaces25 exFetchOk (.good [])
      = .ok (buildQuery ["wonton"])
          ((exPlaces25.take 20).map
            (fun p => mkSummary (readMetadata (.good [])) p blankD))
    ∧ ((exPlaces25.take 20).map
        (fun p => mkSummary (readMetadata (.good [])) p blankD)).length ≤ 20 :=
  search_caps_results_at_20_preserving_order _ _ _ _ (fun _ => blankD)
    (by decide) (fun _ _ => rfl)

/-! ## Claim theorems: the search query -/

/-- C7 counterexample: a term containing a tab — whitespace, but not a
space — is not quoted by the code (`t.includes(' ')` checks only for a
space), while the claim as stated requires quoting every term containing
whitespace. -/
theorem buildQuery_whitespace_counterexample :
    buildQuery ["a\tb"] = "a\tb restaurants in Hong Kong"
    ∧ claimQuery ["a\tb"] = "\"a\tb\" restaurants in Hong Kong"
    ∧ buildQuery ["a\tb"] ≠ claimQuery ["a\tb"] :=
  ⟨by decide, by decide, by decide⟩

/-- C7 as amended: the built query quotes exactly the terms containing a
space character (U+0020), joins all terms with `" OR "` and appends the
fixed regional qualifier; on the claim's own example the query is
`wonton OR "beef brisket" restaurants in Hong Kong`. -/
theorem buildQuery_amended :
    (∀ terms, buildQuery terms = amendedQuery terms)
    ∧ buildQuery ["wonton", "beef brisket"]
        = "wonton OR \"beef brisket\" restaurants in Hong Kong" := by
  constructor
  · intro terms
    unfold buildQuery amendedQuery
    congr 3
    funext t
    rw [strIncludes_space]
  · decide

/-! ## Claim theorems: the place detail aggregation -/

/-- The review-matching condition of the source (`false` on an empty
term list, else "some term occurs in the text"), over a term list
obtained by lower-casing `ts`. -/
theorem termCond_iff (ts : List String) (text : String) :
    ((if (ts.map jsToLower).length = 0 then false
      else (ts.map jsToLower).any (fun t => strIncludes text t)) = true)
    ↔ ∃ t ∈ ts, strIncludes text (jsToLower t) = true := by
  cases ts with
  | nil => simp
  | cons a as => simp [List.any_eq_true]

/-- The dish-matching condition of the source (`true` on an empty term
list, else "some term occurs in the dish label"), over a term list
obtained by lower-casing `ts`. -/
theorem termCondTrue_iff (ts : List String) (dish : String) :
    ((if (ts.map jsToLower).length = 0 then true
      else (ts.map jsToLower).any (fun t => strIncludes dish t)) = true)
    ↔ (ts = [] ∨ ∃ t ∈ ts, strIncludes dish (jsToLower t) = true) := by
  cases ts with
  | nil => simp
  | cons a as => simp [List.any_eq_true]

/-- C3: for every fetched details body and every term list,
`reviewsWithTerms` is a subset of `reviews`; it is `[]` whenever the
term list is empty; and a review belongs to it exactly when its
lower-cased text contains some lower-cased term as a substring. -/
theorem reviewsWithTerms_subset_empty_membership
    (meta : MetaContent) (place : PlaceData) (reqPid : String)
    (ts : List String) :
    (∀ r ∈ (placeDetailCore meta place reqPid (ts.map jsToLower)).reviewsWithTerms,
      r ∈ (placeDetailCore meta place reqPid (ts.map jsToLower)).reviews)
    ∧ (ts = [] →
        (placeDetailCore meta place reqPid (ts.map jsToLower)).reviewsWithTerms = [])
    ∧ ∀ r, r ∈ (placeDetailCore meta place reqPid (ts.map jsToLower)).reviewsWithTerms
        ↔ r ∈ (placeDetailCore meta place reqPid (ts.map jsToLower)).reviews
          ∧ ∃ t ∈ ts, strIncludes (jsToLower (r.text.getD "")) (jsToLower t) = true := by
  have hfield :
      (placeDetailCore meta place reqPid (ts.map jsToLower)).reviewsWithTerms
        = (placeDetailCore meta place reqPid (ts.map jsToLower)).reviews.filter
            (fun r =>
              if (ts.map jsToLower).length = 0 then false
              else (ts.map jsToLower).any
                (fun t => strIncludes (jsToLower (r.text.getD "")) t)) := rfl
  refine ⟨?_, ?_, ?_⟩
  · intro r hr
    rw [hfield] at hr
    exact (List.mem_filter.mp hr).1
  · intro h
    subst h
    rw [hfield]
    simp
  · intro r
    rw [hfield, List.mem_filter]
    constructor
    · rintro ⟨h1, h2⟩
      exact ⟨h1, (termCond_iff ts _).mp h2⟩
    · rintro ⟨h1, h2⟩
      exact ⟨h1, (termCond_iff ts _).mpr h2⟩

/-- C9: `userPhotos` holds exactly the projections of the store records
whose `place_id` is the requested one and whose lower-cased dish label
contains some lower-cased term — and with an empty term list every
record for the place passes the filter (the asymmetry with
`reviewsWithTerms`, which is empty on an empty term list). -/
theorem userPhotos_membership
    (meta : MetaContent) (place : PlaceData) (reqPid : String)
    (ts : List String) :
    (∀ x, x ∈ (placeDetailCore meta place reqPid (ts.map jsToLower)).userPhotos
      ↔ ∃ m ∈ readMetadata meta,
          m.place_id = reqPid
          ∧ (ts = [] ∨ ∃ t ∈ ts, strIncludes (jsToLower m.dish) (jsToLower t) = true)
          ∧ x = projUserPhoto m)
    ∧ (ts = [] →
        (placeDetailCore meta place reqPid (ts.map jsToLower)).userPhotos
          = ((readMetadata meta).filter
              (fun m => m.place_id = reqPid)).map projUserPhoto) := by
  have hfield :
      (placeDetailCore meta place reqPid (ts.map jsToLower)).userPhotos
        = (((readMetadata meta).filter (fun m => m.place_id = reqPid)).filter
            (fun m =>
              if (ts.map jsToLower).length = 0 then true
              else (ts.map jsToLower).any
                (fun t => strIncludes (jsToLower m.dish) t))).map projUserPhoto := rfl
  constructor
  · intro x
    rw [hfield]
    constructor
    · intro hx
      obtain ⟨m, hm, hproj⟩ := List.mem_map.mp hx
      obtain ⟨hm2, hq⟩ := List.mem_filter.mp hm
      obtain ⟨hml, hp⟩ := List.mem_filter.mp hm2
      exact ⟨m, hml, of_decide_eq_true hp,
        (termCondTrue_iff ts (jsToLower m.dish)).mp hq, hproj.symm⟩
    · rintro ⟨m, hml, hp, hq, rfl⟩
      exact List.mem_map.mpr ⟨m,
        List.mem_filter.mpr ⟨List.mem_filter.mpr ⟨hml, decide_eq_true hp⟩,
          (termCondTrue_iff ts (jsToLower m.dish)).mpr hq⟩, rfl⟩
  · intro h
    subst h
    rw [hfield]
    simp

/-! ## Keyword extraction: helper lemmas -/

/-- The guarded count fold of the source equals folding `objInc` over
the kept tokens. -/
theorem foldl_guarded (toks : List String) :
    ∀ acc, toks.foldl
        (fun o w => if w.length ≤ 1 then o
          else if stopWords.contains w then o else objInc o w) acc
      = (toks.filter keepTok).foldl objInc acc := by
  induction toks with
  | nil => intro acc; rfl
  | cons w ws ih =>
    intro acc
    by_cases h1 : w.length ≤ 1
    · have hk : keepTok w = false := by
        unfold keepTok
        rw [decide_eq_false (by omega : ¬ 1 < w.length)]
        rfl
      simp only [List.foldl_cons, List.filter_cons, hk, if_pos h1]
      exact ih acc
    · by_cases h2 : stopWords.contains w = true
      · have hk : keepTok w = false := by
          unfold keepTok
          rw [h2]
          simp
        simp only [List.foldl_cons, List.filter_cons, hk, if_neg h1, if_pos h2]
        exact ih acc
      · have h2' : stopWords.contains w = false := by
          revert h2
          cases stopWords.contains w <;> simp
        have hk : keepTok w = true := by
          unfold keepTok
          rw [decide_eq_true (by omega : 1 < w.length), h2']
          rfl
        simp only [List.foldl_cons, List.filter_cons, hk, if_neg h1, h2',
          Bool.false_eq_true, if_false, if_true]
        exact ih (objInc acc w)

/-- A key emitted by `newKeys` was not already seen. -/
theorem not_mem_of_mem_newKeys :
    ∀ (ks seen : List String) (x : String), x ∈ newKeys seen ks → x ∉ seen := by
  intro ks
  induction ks with
  | nil =>
    intro seen x hx
    cases hx
  | cons t ts ih =>
    intro seen x hx
    by_cases h : t ∈ seen
    · rw [newKeys, if_pos h] at hx
      exact ih seen x hx
    · rw [newKeys, if_neg h] at hx
      rcases List.mem_cons.mp hx with rfl | hx'
      · exact h
      · intro hxs
        exact ih (t :: seen) x hx' (List.mem_cons_of_mem _ hxs)

/-- `newKeys` only depends on the membership of `seen`. -/
theorem newKeys_congr :
    ∀ (ks s₁ s₂ : List String), (∀ x, x ∈ s₁ ↔ x ∈ s₂) →
      newKeys s₁ ks = newKeys s₂ ks
  | [], _, _, _ => rfl
  | t :: ts, s₁, s₂, h => by
    by_cases ht : t ∈ s₁
    · rw [newKeys, newKeys, if_pos ht, if_pos ((h t).mp ht)]
      exact newKeys_congr ts s₁ s₂ h
    · rw [newKeys, newKeys, if_neg ht, if_neg (fun c => ht ((h t).mpr c))]
      congr 1
      exact newKeys_congr ts (t :: s₁) (t :: s₂)
        (fun x => by simp only [List.mem_cons, h x])

/-- Incrementing an existing key bumps exactly that key's value (the key
occurs once, the table keys being distinct). -/
theorem objInc_of_mem :
    ∀ (o : List (String × Nat)) (k : String),
      (o.map Prod.fst).Nodup → k ∈ o.map Prod.fst →
      objInc o k = o.map (fun p => if p.1 = k then (p.1, p.2 + 1) else p) := by
  intro o
  induction o with
  | nil =>
    intro k _ hk
    cases hk
  | cons p rest ih =>
    obtain ⟨k', v⟩ := p
    intro k hnd hk
    have hnd' : (rest.map Prod.fst).Nodup := (List.nodup_cons.mp hnd).2
    by_cases he : k' = k
    · subst he
      rw [objInc, if_pos rfl]
      have hnotin : k' ∉ rest.map Prod.fst := (List.nodup_cons.mp hnd).1
      have : rest.map (fun p => if p.1 = k' then (p.1, p.2 + 1) else p) = rest := by
        conv_rhs => rw [← List.map_id rest]
        apply List.map_congr_left
        intro q hq
        have : q.1 ≠ k' := fun hc => hnotin (hc ▸ List.mem_map_of_mem Prod.fst hq)
        simp [this]
      simp [this]
    · have hk' : k ∈ rest.map Prod.fst := by
        rcases List.mem_cons.mp hk with h | h
        · exact absurd h.symm he
        · exact h
      rw [objInc, if_neg he, ih k hnd' hk']
      simp only [List.map_cons, if_neg he]

/-- Incrementing an absent key appends `(k, 1)`. -/
theorem objInc_of_not_mem :
    ∀ (o : List (String × Nat)) (k : String),
      k ∉ o.map Prod.fst → objInc o k = o ++ [(k, 1)] := by
  intro o
  induction o with
  | nil =>
    intro k _
    rfl
  | cons p rest ih =>
    obtain ⟨k', v⟩ := p
    intro k hk
    have he : k' ≠ k := by
      intro hc
      exact hk (hc ▸ List.mem_cons_self _ _)
    rw [objInc, if_neg he, ih k (fun hc => hk (List.mem_cons_of_mem _ hc))]
    rfl

/-- Keys are unchanged when an existing key is bumped. -/
theorem keys_objInc_mem (o : List (String × Nat)) (k : String)
    (hnd : (o.map Prod.fst).Nodup) (hk : k ∈ o.map Prod.fst) :
    (objInc o k).map Prod.fst = o.map Prod.fst := by
  rw [objInc_of_mem o k hnd hk, List.map_map]
  apply List.map_congr_left
  intro p _
  by_cases h : p.1 = k <;> simp [h]

/-- The new key lands at the end when an absent key is bumped. -/
theorem keys_objInc_not_mem (o : List (String × Nat)) (k : String)
    (hk : k ∉ o.map Prod.fst) :
    (objInc o k).map Prod.fst = o.map Prod.fst ++ [k] := by
  rw [objInc_of_not_mem o k hk, List.map_append]
  rfl

/-- Folding `objInc` over a token list, starting from a table with
distinct keys: every existing key's value grows by the token count of
that key, and the unseen distinct tokens are appended in first-seen
order, paired with their counts. -/
theorem foldl_objInc_eq (ks : List String) :
    ∀ acc : List (String × Nat), (acc.map Prod.fst).Nodup →
      ks.foldl objInc acc
        = acc.map (fun p => (p.1, p.2 + cnt p.1 ks))
          ++ (newKeys (acc.map Prod.fst) ks).map (fun q => (q, cnt q ks)) := by
  induction ks with
  | nil =>
    intro acc hnd
    simp only [List.foldl_nil, newKeys, List.map_nil, List.append_nil, cnt]
    conv_lhs => rw [← List.map_id acc]
    apply List.map_congr_left
    intro p _
    simp
  | cons k ks' ih =>
    intro acc hnd
    rw [List.foldl_cons]
    by_cases hk : k ∈ acc.map Prod.fst
    · have hnd' : ((objInc acc k).map Prod.fst).Nodup := by
        rw [keys_objInc_mem acc k hnd hk]
        exact hnd
      rw [ih (objInc acc k) hnd', keys_objInc_mem acc k hnd hk,
        objInc_of_mem acc k hnd hk]
      have hnew : newKeys (acc.map Prod.fst) (k :: ks')
          = newKeys (acc.map Prod.fst) ks' := by
        rw [newKeys, if_pos hk]
      rw [hnew]
      congr 1
      · rw [List.map_map]
        apply List.map_congr_left
        intro p _
        obtain ⟨a, b⟩ := p
        by_cases hpk : a = k
        · subst hpk
          simp only [Function.comp, if_pos rfl, cnt, Prod.mk.injEq, true_and,
            if_true]
          omega
        · simp only [Function.comp, if_neg hpk, cnt, Prod.mk.injEq, true_and]
          rw [if_neg (Ne.symm hpk)]
          omega
      · apply List.map_congr_left
        intro q hq
        have hqk : k ≠ q := by
          intro he
          exact not_mem_of_mem_newKeys ks' _ q hq (he ▸ hk)
        simp [cnt, hqk]
    · have hkeys := keys_objInc_not_mem acc k hk
      have hnd' : ((objInc acc k).map Prod.fst).Nodup := by
        rw [hkeys]
        simp only [List.nodup_append, List.nodup_cons, List.not_mem_nil,
          not_false_iff, List.nodup_nil, and_true, true_and]
        constructor
        · exact hnd
        · intro a ha
          simp only [List.mem_singleton]
          intro he
          exact hk (he ▸ ha)
      rw [ih (objInc acc k) hnd', hkeys, objInc_of_not_mem acc k hk]
      have hnewcons : newKeys (acc.map Prod.fst) (k :: ks')
          = k :: newKeys (k :: acc.map Prod.fst) ks' := by
        rw [newKeys, if_neg hk]
      rw [hnewcons]
      have hseen : newKeys (acc.map Prod.fst ++ [k]) ks'
          = newKeys (k :: acc.map Prod.fst) ks' := by
        apply newKeys_congr
        intro x
        simp [List.mem_append, List.mem_cons, or_comm]
      rw [List.map_append, hseen]
      rw [List.append_assoc]
      congr 1
      · apply List.map_congr_left
        intro p hp
        have hpk : p.1 ≠ k := by
          intro he
          exact hk (he ▸ List.mem_map_of_mem Prod.fst hp)
        simp only [cnt, Prod.mk.injEq, true_and]
        rw [if_neg (Ne.symm hpk)]
        omega
      · simp only [List.map_cons, List.map_nil, List.singleton_append,
          List.cons.injEq]
        constructor
        · simp only [cnt, if_pos rfl, Prod.mk.injEq, true_and, if_true]
        · apply List.map_congr_left
          intro q hq
          have hqk : k ≠ q := by
            intro he
            exact not_mem_of_mem_newKeys ks' _ q hq
              (he ▸ List.mem_cons_self _ _)
          simp [cnt, hqk]

/-- Filtering key/count pairs by a key predicate is filtering the keys. -/
theorem filter_map_key (q : String → Bool) (c : String → Nat) :
    ∀ l : List String,
      ((l.map (fun k => (k, c k))).filter (fun p => q p.1))
        = (l.filter q).map (fun k => (k, c k)) := by
  intro l
  induction l with
  | nil => rfl
  | cons k ks ih =>
    by_cases hq : q k <;> simp [List.filter_cons, hq, ih]

/-- Numeric insertion on key/count pairs is numeric insertion on keys. -/
theorem insNumP_map (c : String → Nat) (k : String) :
    ∀ l : List String,
      insNumP (k, c k) (l.map (fun x => (x, c x)))
        = (insNum k l).map (fun x => (x, c x)) := by
  intro l
  induction l with
  | nil => rfl
  | cons y ys ih =>
    simp only [List.map_cons, insNumP, insNum]
    by_cases h : digitsVal y ≤ digitsVal k
    · rw [if_pos h, if_pos h, ih]
      rfl
    · rw [if_neg h, if_neg h]
      simp

/-- Numeric sorting of key/count pairs is numeric sorting of keys. -/
theorem sortNumP_map (c : String → Nat) :
    ∀ l : List String,
      sortNumP (l.map (fun x => (x, c x))) = (sortNum l).map (fun x => (x, c x))
  | [] => rfl
  | k :: ks => by
    simp only [List.map_cons, sortNumP, sortNum]
    rw [sortNumP_map c ks, insNumP_map]

/-- `Object.entries` of a table whose entries are keys paired with their
counts: the enumeration reorders the keys and keeps the counts. -/
theorem jsEntries_map (c : String → Nat) (l : List String) :
    jsEntries (l.map (fun k => (k, c k)))
      = (sortNum (l.filter (fun k => isArrayIndexStr k))
          ++ l.filter (fun k => !isArrayIndexStr k)).map (fun k => (k, c k)) := by
  unfold jsEntries
  rw [List.map_append]
  congr 1
  · rw [filter_map_key (fun k => isArrayIndexStr k) c l, sortNumP_map]
  · rw [filter_map_key (fun k => !isArrayIndexStr k) c l]

/-- The source's keyword extraction coincides with the amended
specification pipeline on every review list. -/
theorem dishCandidates_eq_amended (reviews : List Review) :
    dishCandidates reviews = amendedDishCandidates reviews := by
  simp only [dishCandidates, amendedDishCandidates]
  rw [foldl_guarded]
  rw [foldl_objInc_eq _ [] (by simp)]
  simp only [List.map_nil, List.nil_append]
  rw [jsEntries_map]

/-- C4 counterexample: on the review text `"zz 20 10"` all three kept
tokens have count 1, yet the code emits `["10", "20", "zz"]` — the
count table is a JavaScript object, whose `Object.entries` enumerates
array-index-like keys first in ascending numeric order — while the
claim's first-seen tie-breaking dictates `["zz", "20", "10"]`. -/
theorem dishCandidates_first_seen_counterexample :
    dishCandidates [mkReview "zz 20 10"] = ["10", "20", "zz"]
    ∧ claimDishCandidates [mkReview "zz 20 10"] = ["zz", "20", "10"]
    ∧ dishCandidates [mkReview "zz 20 10"]
        ≠ claimDishCandidates [mkReview "zz 20 10"] :=
  ⟨by decide, by decide, by decide⟩

/-- C4 as amended: the keyword extraction concatenates all review text,
lower-cases it, splits on runs of non-word characters, discards tokens
of length at most 1 and the stop words, counts token frequencies, sorts
by descending count — stably, with ties in the enumeration order of the
count table's keys: array-index-like tokens first in ascending numeric
order, then the remaining tokens in first-seen order — and returns the
first 10 keys; on the claim's example the output starts with `noodles`
(count 2), ahead of the singleton tokens. -/
theorem dishCandidates_amended :
    (∀ reviews, dishCandidates reviews = amendedDishCandidates reviews)
    ∧ (dishCandidates
        [mkReview "Great noodles and amazing broth, noodles!"]).head?
        = some "noodles" :=
  ⟨dishCandidates_eq_amended, by decide⟩

end EatWhat
